import Mathlib

/-!
Verification of the bpflint terminal report renderer
(`src/report/terminal.rs` and `src/report/highlight.rs`).

The embedding models byte buffers as `List Nat`, rendered text as
`List Char` and the writer as a pure accumulator: a successful render
returns the list of lines written (one entry per `writeln!`), and a
failed render returns the error.  The non-wasm (terminal) build target
is modelled, matching the code locations the claims cite.
-/

namespace Bpflint

abbrev Bytes := List Nat

abbrev Chars := List Char

/-! ## Data model (`Point`, `Range`, `LintMatch`, `Opts`) -/

/-- Zero-based row/column coordinates, as in the `Point` struct. -/
structure Point where
  row : Nat
  col : Nat
deriving Repr, DecidableEq

/-- The `Range` struct: a half-open byte span `bytes: start..end` plus
start/end points.  `Range::is_empty` on `bytes` is `end <= start`. -/
structure Range where
  bytesStart : Nat
  bytesEnd : Nat
  start_point : Point
  end_point : Point
deriving Repr, DecidableEq

/-- The `LintMatch` struct from the crate root: lint name, message and range. -/
structure LintMatch where
  lint_name : String
  message : String
  range : Range
deriving Repr, DecidableEq

/-- Configuration options for terminal reporting (`Opts` in terminal.rs).
`extra_lines` is `(before, after)`; the source uses `u8` fields, converted
to `usize` at the use sites, modelled here as `Nat`. -/
structure Opts where
  extra_lines : Nat × Nat
  color : Bool
deriving Repr, DecidableEq

/-- Mirrors `Opts::default()` from `#[derive(Default)]`: zero context lines
and color disabled. -/
def Opts.default : Opts := { extra_lines := (0, 0), color := false }

/-! ## Decimal rendering of numbers

Models Rust's `Display` for `usize` (`to_string`, and width-padded `{n:w$}`
formatting, which right-aligns with spaces).  A fuel parameter keeps the
recursion structural so that concrete evaluation reduces in the kernel. -/

def digitChar (d : Nat) : Char := Char.ofNat (48 + d)

def natToStringGo : Nat → Nat → Chars → Chars
  | 0, _, acc => acc
  | fuel + 1, n, acc =>
    if n < 10 then digitChar n :: acc
    else natToStringGo fuel (n / 10) (digitChar (n % 10) :: acc)

/-- Decimal digits of `n`, most significant first: models `n.to_string()`. -/
def natToString (n : Nat) : Chars := natToStringGo (n + 1) n []

/-- A run of `n` spaces: models `format!("{:n$}", "")`. -/
def spaces (n : Nat) : Chars := List.replicate n ' '

/-- Right-aligned space padding of a number to width `w`:
models `format!("{n:w$}")`. -/
def padNum (n w : Nat) : Chars := spaces (w - (natToString n).length) ++ natToString n

/-! ## Line windowing

Modelled from the spec: the `Lines` iterator (`src/lines.rs`) is not part
of the provided sources; only its callers in `terminal.rs` are.  Per spec
section 4.1, `Lines::new(buffer, offset)` forward-iterates from the line
containing `offset`, splitting on the newline byte (consumed, not yielded),
yielding a final partial line when the buffer has no trailing newline and
yielding no empty line after a trailing newline; reverse iteration walks
backward, closest line first.  The `.rev().skip(1)` call site in
`terminal.rs` (with its comment "Skip the line of the match") shows that
reverse iteration starts with the line containing `offset` itself. -/

def splitLinesGo : Bytes → Bytes → List Bytes
  | acc, [] => if acc.isEmpty then [] else [acc.reverse]
  | acc, b :: rest =>
    if b = 10 then acc.reverse :: splitLinesGo [] rest
    else splitLinesGo (b :: acc) rest

/-- Modelled from the spec: all lines of the buffer, split on the newline
byte, the newline consumed but not included; a trailing newline does not
produce a final empty line. -/
def splitLines (code : Bytes) : List Bytes := splitLinesGo [] code

/-- Modelled from the spec: index of the line containing byte `offset`
(the number of newline bytes strictly before it). -/
def lineIndex (code : Bytes) (offset : Nat) : Nat := (code.take offset).count 10

/-- Modelled from the spec: forward iteration of `Lines::new(code, offset)` —
the line containing `offset`, then each subsequent line. -/
def linesFrom (code : Bytes) (offset : Nat) : List Bytes :=
  (splitLines code).drop (lineIndex code offset)

/-- Modelled from the spec: reverse iteration of `Lines::new(code, offset)` —
the line containing `offset` first, then each preceding line, closest first
(the renderer then applies `.skip(1)` to drop the match's own line). -/
def linesRev (code : Bytes) (offset : Nat) : List Bytes :=
  ((splitLines code).take (lineIndex code offset + 1)).reverse

/-! ## Lossy UTF-8 decoding

Models Rust's `String::from_utf8_lossy`: invalid byte sequences are
replaced by U+FFFD instead of failing.  The replacement granularity for
truncated multi-byte sequences is approximated (one replacement character
per rejected lead byte); validity of accepted sequences follows UTF-8. -/

def replacementChar : Char := Char.ofNat 0xFFFD

def isCont (b : Nat) : Bool := 0x80 ≤ b && b < 0xC0

def utf8LossyGo : Nat → Bytes → Chars
  | 0, _ => []
  | _ + 1, [] => []
  | fuel + 1, b :: rest =>
    if b < 0x80 then Char.ofNat b :: utf8LossyGo fuel rest
    else if 0xC2 ≤ b && b < 0xE0 then
      match rest with
      | c1 :: rest2 =>
        if isCont c1 then
          Char.ofNat ((b - 0xC0) * 64 + (c1 - 0x80)) :: utf8LossyGo fuel rest2
        else replacementChar :: utf8LossyGo fuel rest
      | [] => [replacementChar]
    else if 0xE0 ≤ b && b < 0xF0 then
      match rest with
      | c1 :: c2 :: rest3 =>
        if isCont c1 && isCont c2 then
          let cp := (b - 0xE0) * 4096 + (c1 - 0x80) * 64 + (c2 - 0x80)
          if 0x800 ≤ cp && !(0xD800 ≤ cp && cp < 0xE000) then
            Char.ofNat cp :: utf8LossyGo fuel rest3
          else replacementChar :: utf8LossyGo fuel rest
        else replacementChar :: utf8LossyGo fuel rest
      | _ => replacementChar :: utf8LossyGo fuel rest
    else if 0xF0 ≤ b && b < 0xF5 then
      match rest with
      | c1 :: c2 :: c3 :: rest4 =>
        if isCont c1 && isCont c2 && isCont c3 then
          let cp := (b - 0xF0) * 262144 + (c1 - 0x80) * 4096 + (c2 - 0x80) * 64 + (c3 - 0x80)
          if 0x10000 ≤ cp && cp < 0x110000 then
            Char.ofNat cp :: utf8LossyGo fuel rest4
          else replacementChar :: utf8LossyGo fuel rest
        else replacementChar :: utf8LossyGo fuel rest
      | _ => replacementChar :: utf8LossyGo fuel rest
    else replacementChar :: utf8LossyGo fuel rest

/-- Models `String::from_utf8_lossy(code)`. -/
def utf8Lossy (code : Bytes) : Chars := utf8LossyGo code.length code

/-! ## ANSI color constants

Modelled from the spec: `src/report/ansi_color.rs` is not part of the
provided sources.  Per spec section 4.3 these are terminal style-escape
tokens (bold, colors, reset); the concrete escape values are standard ANSI
sequences and no claim depends on them, only on their identities. -/

def COLOR_BOLD : Chars := "\x1B[1m".data
def COLOR_RED : Chars := "\x1B[31m".data
def COLOR_BLUE : Chars := "\x1B[34m".data
def COLOR_RESET : Chars := "\x1B[0m".data
def COLOR_PURPLE : Chars := "\x1B[38;2;121;93;163m".data
def COLOR_TEAL : Chars := "\x1B[38;2;0;134;179m".data
def COLOR_PINK : Chars := "\x1B[38;2;167;29;93m".data
def COLOR_INDIGO : Chars := "\x1B[38;2;24;54;145m".data
def COLOR_GRAY : Chars := "\x1B[38;2;150;152;150m".data
def COLOR_DARKGRAY : Chars := "\x1B[38;2;51;51;51m".data

/-! ## Highlighter capability (`src/report/highlight.rs`) -/

/-- The `Highlighter` trait: a line of bytes to styled text, fallibly. -/
structure Highlighter where
  highlight : Bytes → Except String Chars

/-- `NopHighlighter`: lossy-decodes the line, no styling, never fails. -/
def NopHighlighter : Highlighter :=
  ⟨fun code => .ok (utf8Lossy code)⟩

/-- `create_highlighter(color)` for the non-wasm target: `!color` yields the
no-op highlighter; otherwise it defers to `TreeSitterHighlighter::new()`,
an external tree-sitter construction modelled by the `tsNew` parameter. -/
def create_highlighter (tsNew : Except String Highlighter) (color : Bool) :
    Except String Highlighter :=
  if !color then .ok NopHighlighter else tsNew

/-- The `ANSI_HIGHLIGHT_ARRAY` token-category to color table. -/
def ANSI_HIGHLIGHT_ARRAY : List (String × Chars) :=
  [("function", COLOR_PURPLE),
   ("function.builtin", COLOR_TEAL),
   ("keyword", COLOR_PINK),
   ("string", COLOR_INDIGO),
   ("comment", COLOR_GRAY),
   ("type", COLOR_PINK),
   ("constant", COLOR_TEAL),
   ("variable", COLOR_TEAL),
   ("number", COLOR_TEAL),
   ("operator", COLOR_PINK),
   ("attribute", COLOR_PURPLE),
   ("property", COLOR_TEAL),
   ("punctuation", COLOR_DARKGRAY),
   ("macro", COLOR_TEAL),
   ("namespace", COLOR_DARKGRAY)]

/-- `ansi_for_highlight`: looks up the highlight-group name at index `h`
of the configured `names` (defaulting to "unknown" out of bounds) in
`ANSI_HIGHLIGHT_ARRAY`; an unrecognized group falls back to `COLOR_RESET`. -/
def ansi_for_highlight (names : List String) (h : Nat) : Chars :=
  let group_name := (names[h]?).getD "unknown"
  (((ANSI_HIGHLIGHT_ARRAY.find? (fun p => p.1 == group_name)).map Prod.snd).getD COLOR_RESET)

/-! ## Format tokens and HTML escaping (terminal.rs, non-wasm target) -/

/-- `get_format_strings(color)`: `(bold, warn, highlight, reset)` chrome
tokens; all empty when color is disabled. -/
def get_format_strings (color : Bool) : Chars × Chars × Chars × Chars :=
  if color then
    (COLOR_BOLD, COLOR_BOLD ++ COLOR_RED, COLOR_BOLD ++ COLOR_BLUE, COLOR_RESET)
  else ([], [], [], [])

def boldTok (color : Bool) : Chars := (get_format_strings color).1

def warnTok (color : Bool) : Chars := (get_format_strings color).2.1

def highlightTok (color : Bool) : Chars := (get_format_strings color).2.2.1

def resetTok (color : Bool) : Chars := (get_format_strings color).2.2.2

/-- `escape_html` for the non-wasm (terminal) target: a no-op. -/
def escape_html (text : String) : String := text

/-! ## Line builders

One definition per `writeln!`/`format!` shape in `report_opts`. -/

/-- Header: `"{warn}warning{reset}{bold}: [{name}] {message}{reset}"`. -/
def headerLine (warn rst bold : Chars) (name msg : String) : Chars :=
  warn ++ "warning".data ++ rst ++ bold ++ ": [".data ++ name.data ++ "] ".data
    ++ msg.data ++ rst

/-- Location: `"  {highlight}-->{reset} {path}:{start_row}:{start_col}"`. -/
def locationLine (hlT rst : Chars) (path : String) (sr sc : Nat) : Chars :=
  "  ".data ++ hlT ++ "-->".data ++ rst ++ " ".data ++ path.data ++ ":".data
    ++ natToString sr ++ ":".data ++ natToString sc

/-- Blank gutter (`prefix` in the source):
`"{highlight}{:w$} |{reset} "`. -/
def blankGutterLine (hlT rst : Chars) (w : Nat) : Chars :=
  hlT ++ spaces w ++ " |".data ++ rst ++ " ".data

/-- Numbered gutter (`lprefix` in the source):
`"{highlight}{row:w$} |{reset} "`. -/
def numGutter (hlT rst : Chars) (w row : Nat) : Chars :=
  hlT ++ padNum row w ++ " |".data ++ rst ++ " ".data

/-- A context line: numbered gutter, `code_indent` spaces, highlighted code
(`"{lprefix}{highlighted}"` where `lprefix` embeds `{:ci$}`). -/
def ctxLine (hlT rst : Chars) (w ci row : Nat) (h : Chars) : Chars :=
  numGutter hlT rst w row ++ spaces ci ++ h

/-- Single-line underline:
`"{prefix}{:sc$}{warn}{:^<(ec-sc)$}{reset}"` — blank gutter, `sc` spaces,
then `ec - sc` carets (`saturating_sub`; zero carets when `ec ≤ sc`). -/
def singleUnderline (hlT warn rst : Chars) (w sc ec : Nat) : Chars :=
  blankGutterLine hlT rst w ++ spaces sc ++ warn ++ List.replicate (ec - sc) '^' ++ rst

/-- One row of a multi-line match:
`"{lprefix} {warn}{c}{reset} {highlighted}"`. -/
def multiRowLine (hlT warn rst : Chars) (w row : Nat) (c : Chars) (h : Chars) : Chars :=
  numGutter hlT rst w row ++ " ".data ++ warn ++ c ++ rst ++ " ".data ++ h

/-- Multi-line closing underline:
`"{prefix} {warn}|{:_<ec$}^{reset}"`. -/
def multiUnderline (hlT warn rst : Chars) (w ec : Nat) : Chars :=
  blankGutterLine hlT rst w ++ " ".data ++ warn ++ "|".data
    ++ List.replicate ec '_' ++ "^".data ++ rst

/-! ## The renderer (`report_opts`) -/

/-- Fallible map over a list: models the `try_for_each` loops, collecting
the written lines; the first error aborts. -/
def mapE (f : α → Except String β) : List α → Except String (List β)
  | [] => .ok []
  | a :: as =>
    match f a with
    | .error e => .error e
    | .ok b =>
      match mapE f as with
      | .error e => .error e
      | .ok bs => .ok (b :: bs)

/-- Models anyhow's `.context("failed to highlight source code line ...")`. -/
def ctxErr (r : Except String Chars) : Except String Chars :=
  match r with
  | .error e => .error ("failed to highlight source code line: " ++ e)
  | .ok h => .ok h

/-- Gutter width (`prefix_indent` in the source): the decimal digit count
of `end_row + extra_lines.1` (the context-after count). -/
def gutterWidth (m : LintMatch) (opts : Opts) : Nat :=
  (natToString (m.range.end_point.row + opts.extra_lines.2)).length

/-- `code_indent`: 0 for a single-line match, 3 for a multi-line match. -/
def codeIndent (m : LintMatch) : Nat :=
  if m.range.start_point.row = m.range.end_point.row then 0 else 3

/-- Number of lines the match body consumes from the forward iterator:
one for a single-line match, `end_row + 1 - start_row` otherwise (the
`start_row..=end_row` loop; the iterator may run out earlier). -/
def consumed (m : LintMatch) : Nat :=
  if m.range.start_point.row = m.range.end_point.row then 1
  else m.range.end_point.row + 1 - m.range.start_point.row

/-- Context lines before the match: `Lines::new(code, start).rev().skip(1)
.take(before).collect().into_iter().enumerate().rev()`, each row numbered
`start_row - row_sub - 1`. -/
def beforeSegE (hl : Highlighter) (hlT rst : Chars) (w ci sr nb : Nat)
    (code : Bytes) (off : Nat) : Except String (List Chars) :=
  mapE (fun p => Except.map (fun h => ctxLine hlT rst w ci (sr - p.1 - 1) h)
      (ctxErr (hl.highlight p.2)))
    ((((linesRev code off).drop 1).take nb).enum.reverse)

/-- Context lines after the match: `lines.take(after).enumerate()`, each
row numbered `end_row + row_add + 1`, reading the forward iterator's
remainder. -/
def afterSegE (hl : Highlighter) (hlT rst : Chars) (w ci er na : Nat)
    (rest : List Bytes) : Except String (List Chars) :=
  mapE (fun p => Except.map (fun h => ctxLine hlT rst w ci (er + p.1 + 1) h)
      (ctxErr (hl.highlight p.2)))
    ((rest.take na).enum)

/-- The match body itself.  Single-line (`sr = er`): `lines.next().unwrap()`
(an error here models the unwrap panic), one code line and the caret
underline.  Multi-line: one connector row per `(start_row..=end_row)`
element while the iterator lasts (`/` first, `|` after), then the closing
underline. -/
def matchSegE (hl : Highlighter) (hlT warn rst : Chars) (w sr er sc ec : Nat)
    (L : List Bytes) : Except String (List Chars) :=
  if sr = er then
    match L with
    | [] => .error "unwrap failed: Lines will always report at least a single line"
    | line :: _ =>
      match ctxErr (hl.highlight line) with
      | .error e => .error e
      | .ok h =>
        .ok [numGutter hlT rst w sr ++ h, singleUnderline hlT warn rst w sc ec]
  else
    match mapE (fun p => Except.map (fun h => multiRowLine hlT warn rst w (sr + p.1)
        (if p.1 = 0 then "/".data else "|".data) h) (ctxErr (hl.highlight p.2)))
      ((L.take (er + 1 - sr)).enum) with
    | .error e => .error e
    | .ok rows => .ok (rows ++ [multiUnderline hlT warn rst w ec])

/-- The body of `report_opts` after highlighter creation: header, location,
then (unless the byte span is empty, which short-circuits) the blank
gutter, before-context, match body, after-context and closing blank
gutter. -/
def renderWith (hl : Highlighter) (m : LintMatch) (code : Bytes) (path : String)
    (opts : Opts) : Except String (List Chars) :=
  if m.range.bytesEnd ≤ m.range.bytesStart then
    .ok [headerLine (warnTok opts.color) (resetTok opts.color) (boldTok opts.color)
           (escape_html m.lint_name) (escape_html m.message),
         locationLine (highlightTok opts.color) (resetTok opts.color)
           (escape_html path) m.range.start_point.row m.range.start_point.col]
  else
    match beforeSegE hl (highlightTok opts.color) (resetTok opts.color)
        (gutterWidth m opts) (codeIndent m) m.range.start_point.row
        opts.extra_lines.1 code m.range.bytesStart with
    | .error e => .error e
    | .ok bOut =>
      match matchSegE hl (highlightTok opts.color) (warnTok opts.color)
          (resetTok opts.color) (gutterWidth m opts) m.range.start_point.row
          m.range.end_point.row m.range.start_point.col m.range.end_point.col
          (linesFrom code m.range.bytesStart) with
      | .error e => .error e
      | .ok mOut =>
        match afterSegE hl (highlightTok opts.color) (resetTok opts.color)
            (gutterWidth m opts) (codeIndent m) m.range.end_point.row
            opts.extra_lines.2 ((linesFrom code m.range.bytesStart).drop (consumed m)) with
        | .error e => .error e
        | .ok aOut =>
          .ok ([headerLine (warnTok opts.color) (resetTok opts.color) (boldTok opts.color)
                  (escape_html m.lint_name) (escape_html m.message),
                locationLine (highlightTok opts.color) (resetTok opts.color)
                  (escape_html path) m.range.start_point.row m.range.start_point.col,
                blankGutterLine (highlightTok opts.color) (resetTok opts.color)
                  (gutterWidth m opts)]
            ++ bOut ++ mOut ++ aOut
            ++ [blankGutterLine (highlightTok opts.color) (resetTok opts.color)
                  (gutterWidth m opts)])

/-- `report_opts`: creates the highlighter from the options (the external
tree-sitter construction passed as `tsNew`), then renders.  The returned
list holds one entry per `writeln!` on the writer. -/
def report_opts (tsNew : Except String Highlighter) (m : LintMatch) (code : Bytes)
    (path : String) (opts : Opts) : Except String (List Chars) :=
  match create_highlighter tsNew opts.color with
  | .error e => .error e
  | .ok hl => renderWith hl m code path opts

/-- `report`: delegates to `report_opts` with `Opts::default()`. -/
def report (tsNew : Except String Highlighter) (m : LintMatch) (code : Bytes)
    (path : String) : Except String (List Chars) :=
  report_opts tsNew m code path Opts.default

/-- ASCII bytes of a string, used to write concrete source buffers. -/
def strBytes (s : String) : Bytes := s.data.map Char.toNat

end Bpflint


/-! # Lemma layer -/

namespace Bpflint

/-! ## Decimal rendering lemmas -/

theorem natToStringGo_acc (fuel : Nat) : ∀ (n : Nat) (acc : Chars), n < fuel →
    natToStringGo fuel n acc = natToStringGo fuel n [] ++ acc := by
  induction fuel with
  | zero => intro n acc h; omega
  | succ fuel ih =>
    intro n acc _
    by_cases h10 : n < 10
    · simp [natToStringGo, h10]
    · have hdiv : n / 10 < n := Nat.div_lt_self (by omega) (by omega)
      have hf : n / 10 < fuel := by omega
      simp only [natToStringGo, h10, if_false]
      rw [ih (n / 10) (digitChar (n % 10) :: acc) hf,
          ih (n / 10) [digitChar (n % 10)] hf]
      simp

theorem natToStringGo_fuel (n : Nat) : ∀ (f1 f2 : Nat), n < f1 → n < f2 →
    natToStringGo f1 n [] = natToStringGo f2 n [] := by
  induction n using Nat.strong_induction_on with
  | _ n ih =>
    intro f1 f2 h1 h2
    match f1, f2 with
    | g1 + 1, g2 + 1 =>
      by_cases h10 : n < 10
      · simp [natToStringGo, h10]
      · have hdiv : n / 10 < n := Nat.div_lt_self (by omega) (by omega)
        simp only [natToStringGo, h10, if_false]
        rw [natToStringGo_acc g1 (n / 10) [digitChar (n % 10)] (by omega),
            natToStringGo_acc g2 (n / 10) [digitChar (n % 10)] (by omega),
            ih (n / 10) hdiv g1 g2 (by omega) (by omega)]

theorem natToString_lt10 {n : Nat} (h : n < 10) : natToString n = [digitChar n] := by
  simp [natToString, natToStringGo, h]

theorem natToString_ge10 {n : Nat} (h : 10 ≤ n) :
    natToString n = natToString (n / 10) ++ [digitChar (n % 10)] := by
  have hdiv : n / 10 < n := Nat.div_lt_self (by omega) (by omega)
  have h1 : natToString n = natToStringGo n (n / 10) [digitChar (n % 10)] := by
    unfold natToString
    conv_lhs => simp only [natToStringGo]
    rw [if_neg (show ¬ n < 10 by omega)]
  rw [h1, natToStringGo_acc n (n / 10) [digitChar (n % 10)] (by omega),
      natToStringGo_fuel (n / 10) n (n / 10 + 1) (by omega) (by omega)]
  rfl

theorem natToString_length_pos (n : Nat) : 0 < (natToString n).length := by
  by_cases h : n < 10
  · rw [natToString_lt10 h]; simp
  · rw [natToString_ge10 (by omega)]; simp

theorem natToString_length_mono : ∀ {m n : Nat}, m ≤ n →
    (natToString m).length ≤ (natToString n).length := by
  intro m n
  induction n using Nat.strong_induction_on generalizing m with
  | _ n ih =>
    intro hmn
    by_cases hn : n < 10
    · rw [natToString_lt10 hn, natToString_lt10 (show m < 10 by omega)]
      simp
    · by_cases hm : m < 10
      · rw [natToString_lt10 hm, natToString_ge10 (show (10 : Nat) ≤ n by omega)]
        have hp := natToString_length_pos (n / 10)
        simp only [List.length_append, List.length_cons, List.length_nil]
        omega
      · rw [natToString_ge10 (show (10 : Nat) ≤ m by omega),
            natToString_ge10 (show (10 : Nat) ≤ n by omega)]
        have hdiv : n / 10 < n := Nat.div_lt_self (by omega) (by omega)
        have hle := ih (n / 10) hdiv (Nat.div_le_div_right hmn)
        simp only [List.length_append, List.length_cons, List.length_nil]
        omega

theorem padNum_length (n w : Nat) : (padNum n w).length = max w (natToString n).length := by
  simp [padNum, spaces]
  omega

theorem padNum_length_of_le {n w : Nat} (h : (natToString n).length ≤ w) :
    (padNum n w).length = w := by
  rw [padNum_length]; omega

/-! ## `mapE` lemmas -/

theorem mapE_ok_length {α β : Type} {f : α → Except String β} :
    ∀ {l : List α} {out : List β}, mapE f l = .ok out → out.length = l.length := by
  intro l
  induction l with
  | nil =>
    intro out h
    simp only [mapE, Except.ok.injEq] at h
    simp [← h]
  | cons a as ih =>
    intro out h
    simp only [mapE] at h
    cases hf : f a with
    | error e => rw [hf] at h; cases h
    | ok b =>
      rw [hf] at h
      cases hm : mapE f as with
      | error e => rw [hm] at h; cases h
      | ok bs =>
        rw [hm] at h
        cases h
        simp [ih hm]

theorem mapE_ok_mem {α β : Type} {f : α → Except String β} :
    ∀ {l : List α} {out : List β}, mapE f l = .ok out →
      ∀ y ∈ out, ∃ x ∈ l, f x = .ok y := by
  intro l
  induction l with
  | nil =>
    intro out h y hy
    simp only [mapE, Except.ok.injEq] at h
    subst h
    simp at hy
  | cons a as ih =>
    intro out h y hy
    simp only [mapE] at h
    cases hf : f a with
    | error e => rw [hf] at h; cases h
    | ok b =>
      rw [hf] at h
      cases hm : mapE f as with
      | error e => rw [hm] at h; cases h
      | ok bs =>
        rw [hm] at h
        cases h
        rcases List.mem_cons.mp hy with hy | hy
        · exact ⟨a, List.mem_cons_self a as, by rw [hf, hy]⟩
        · obtain ⟨x, hx, hfx⟩ := ih hm y hy
          exact ⟨x, List.mem_cons_of_mem a hx, hfx⟩

theorem mapE_getElem? {α β : Type} {f : α → Except String β} :
    ∀ {l : List α} {out : List β}, mapE f l = .ok out →
      ∀ (i : Nat) (x : α), l[i]? = some x → ∃ y, f x = .ok y ∧ out[i]? = some y := by
  intro l
  induction l with
  | nil => intro out h i x hx; simp at hx
  | cons a as ih =>
    intro out h i x hx
    simp only [mapE] at h
    cases hf : f a with
    | error e => rw [hf] at h; cases h
    | ok b =>
      rw [hf] at h
      cases hm : mapE f as with
      | error e => rw [hm] at h; cases h
      | ok bs =>
        rw [hm] at h
        cases h
        match i with
        | 0 =>
          simp only [List.getElem?_cons_zero, Option.some.injEq] at hx
          subst hx
          exact ⟨b, hf, by simp⟩
        | i + 1 =>
          simp only [List.getElem?_cons_succ] at hx
          obtain ⟨y, hy1, hy2⟩ := ih hm i x hx
          exact ⟨y, hy1, by simpa using hy2⟩

theorem mapE_of_forall_ok {α β : Type} {f : α → Except String β} {g : α → β} :
    ∀ {l : List α}, (∀ x ∈ l, f x = .ok (g x)) → mapE f l = .ok (l.map g) := by
  intro l
  induction l with
  | nil => intro _; simp [mapE]
  | cons a as ih =>
    intro h
    simp only [mapE, h a (List.mem_cons_self a as),
      ih (fun x hx => h x (List.mem_cons_of_mem a hx))]
    simp


/-! ## Line-splitting lemmas -/

theorem splitLinesGo_ne_nil : ∀ (l acc : Bytes), acc ≠ [] → splitLinesGo acc l ≠ [] := by
  intro l
  induction l with
  | nil =>
    intro acc hacc
    simp only [splitLinesGo]
    rw [if_neg (by simpa using hacc)]
    simp
  | cons b rest ih =>
    intro acc hacc
    simp only [splitLinesGo]
    by_cases hb : b = 10
    · rw [if_pos hb]; simp
    · rw [if_neg hb]; exact ih (b :: acc) (by simp)

theorem splitLinesGo_length_indep : ∀ (l : Bytes), l ≠ [] → ∀ (acc acc' : Bytes),
    (splitLinesGo acc l).length = (splitLinesGo acc' l).length := by
  intro l
  induction l with
  | nil => intro h; exact absurd rfl h
  | cons b rest ih =>
    intro _ acc acc'
    simp only [splitLinesGo]
    by_cases hb : b = 10
    · rw [if_pos hb, if_pos hb]
      simp
    · rw [if_neg hb, if_neg hb]
      by_cases hr : rest = []
      · subst hr
        simp [splitLinesGo]
      · exact ih hr (b :: acc) (b :: acc')

theorem lineIndex_lt_splitLines_length : ∀ (code : Bytes) (off : Nat),
    off < code.length → lineIndex code off < (splitLines code).length := by
  intro code
  induction code with
  | nil => intro off h; simp at h
  | cons b rest ih =>
    intro off hoff
    unfold lineIndex splitLines
    match off with
    | 0 =>
      simp only [List.take_zero, List.count_nil]
      by_cases hb : b = 10
      · simp only [splitLinesGo, if_pos hb]; simp
      · simp only [splitLinesGo, if_neg hb]
        have := splitLinesGo_ne_nil rest [b] (by simp)
        exact List.length_pos.mpr this
    | o + 1 =>
      have ho : o < rest.length := by simpa using hoff
      simp only [List.take_succ_cons]
      rw [List.count_cons]
      by_cases hb : b = 10
      · subst hb
        simp only [splitLinesGo, if_pos rfl, List.length_cons]
        have h2 := ih o ho
        unfold lineIndex splitLines at h2
        simp only [show ((10 : Nat) == 10) = true from rfl, if_true, List.length_cons]
        omega
      · simp only [splitLinesGo, if_neg hb]
        have hne : rest ≠ [] := by
          intro hr; subst hr; simp at ho
        rw [splitLinesGo_length_indep rest hne [b] []]
        have := ih o ho
        unfold lineIndex splitLines at this
        have hbeq : (b == 10) = false := by simpa using hb
        rw [hbeq]
        simpa using this

theorem linesFrom_ne_nil {code : Bytes} {off : Nat} (h : off < code.length) :
    linesFrom code off ≠ [] := by
  unfold linesFrom
  intro hdrop
  have := List.drop_eq_nil_iff.mp hdrop
  have := lineIndex_lt_splitLines_length code off h
  omega

/-! ## Renderer inversion lemmas -/

theorem report_opts_ok_inv {tsNew : Except String Highlighter} {m : LintMatch}
    {code : Bytes} {path : String} {opts : Opts} {out : List Chars}
    (h : report_opts tsNew m code path opts = .ok out) :
    ∃ hl, create_highlighter tsNew opts.color = .ok hl ∧
      renderWith hl m code path opts = .ok out := by
  unfold report_opts at h
  cases hc : create_highlighter tsNew opts.color with
  | error e => rw [hc] at h; cases h
  | ok hl => rw [hc] at h; exact ⟨hl, rfl, h⟩

theorem renderWith_ok_inv {hl : Highlighter} {m : LintMatch} {code : Bytes}
    {path : String} {opts : Opts} {out : List Chars}
    (hne : ¬ (m.range.bytesEnd ≤ m.range.bytesStart))
    (h : renderWith hl m code path opts = .ok out) :
    ∃ bOut mOut aOut,
      beforeSegE hl (highlightTok opts.color) (resetTok opts.color) (gutterWidth m opts)
        (codeIndent m) m.range.start_point.row opts.extra_lines.1 code
        m.range.bytesStart = .ok bOut ∧
      matchSegE hl (highlightTok opts.color) (warnTok opts.color) (resetTok opts.color)
        (gutterWidth m opts) m.range.start_point.row m.range.end_point.row
        m.range.start_point.col m.range.end_point.col
        (linesFrom code m.range.bytesStart) = .ok mOut ∧
      afterSegE hl (highlightTok opts.color) (resetTok opts.color) (gutterWidth m opts)
        (codeIndent m) m.range.end_point.row opts.extra_lines.2
        ((linesFrom code m.range.bytesStart).drop (consumed m)) = .ok aOut ∧
      out = [headerLine (warnTok opts.color) (resetTok opts.color) (boldTok opts.color)
               (escape_html m.lint_name) (escape_html m.message),
             locationLine (highlightTok opts.color) (resetTok opts.color) (escape_html path)
               m.range.start_point.row m.range.start_point.col,
             blankGutterLine (highlightTok opts.color) (resetTok opts.color) (gutterWidth m opts)]
        ++ bOut ++ mOut ++ aOut
        ++ [blankGutterLine (highlightTok opts.color) (resetTok opts.color)
              (gutterWidth m opts)] := by
  unfold renderWith at h
  rw [if_neg hne] at h
  cases hb : beforeSegE hl (highlightTok opts.color) (resetTok opts.color) (gutterWidth m opts)
      (codeIndent m) m.range.start_point.row opts.extra_lines.1 code m.range.bytesStart with
  | error e => rw [hb] at h; cases h
  | ok bOut =>
    rw [hb] at h
    cases hm : matchSegE hl (highlightTok opts.color) (warnTok opts.color) (resetTok opts.color)
        (gutterWidth m opts) m.range.start_point.row m.range.end_point.row
        m.range.start_point.col m.range.end_point.col
        (linesFrom code m.range.bytesStart) with
    | error e => rw [hm] at h; cases h
    | ok mOut =>
      rw [hm] at h
      cases ha : afterSegE hl (highlightTok opts.color) (resetTok opts.color)
          (gutterWidth m opts) (codeIndent m) m.range.end_point.row opts.extra_lines.2
          ((linesFrom code m.range.bytesStart).drop (consumed m)) with
      | error e => rw [ha] at h; cases h
      | ok aOut =>
        rw [ha] at h
        cases h
        exact ⟨bOut, mOut, aOut, rfl, rfl, rfl, rfl⟩

theorem matchSegE_single_inv {hl : Highlighter} {hlT warn rst : Chars}
    {w sr er sc ec : Nat} {L : List Bytes} {mOut : List Chars}
    (hsr : sr = er) (h : matchSegE hl hlT warn rst w sr er sc ec L = .ok mOut) :
    ∃ line rest hh, L = line :: rest ∧ ctxErr (hl.highlight line) = .ok hh ∧
      mOut = [numGutter hlT rst w sr ++ hh, singleUnderline hlT warn rst w sc ec] := by
  unfold matchSegE at h
  rw [if_pos hsr] at h
  cases L with
  | nil => dsimp only at h; cases h
  | cons line rest =>
    dsimp only at h
    cases hh : ctxErr (hl.highlight line) with
    | error e => rw [hh] at h; cases h
    | ok v =>
      rw [hh] at h
      cases h
      exact ⟨line, rest, v, rfl, hh, rfl⟩

theorem matchSegE_multi_inv {hl : Highlighter} {hlT warn rst : Chars}
    {w sr er sc ec : Nat} {L : List Bytes} {mOut : List Chars}
    (hsr : ¬ sr = er) (h : matchSegE hl hlT warn rst w sr er sc ec L = .ok mOut) :
    ∃ rows, mapE (fun p => Except.map (fun hv => multiRowLine hlT warn rst w (sr + p.1)
        (if p.1 = 0 then "/".data else "|".data) hv) (ctxErr (hl.highlight p.2)))
        ((L.take (er + 1 - sr)).enum) = .ok rows ∧
      mOut = rows ++ [multiUnderline hlT warn rst w ec] := by
  unfold matchSegE at h
  rw [if_neg hsr] at h
  cases hr : mapE (fun p => Except.map (fun hv => multiRowLine hlT warn rst w (sr + p.1)
      (if p.1 = 0 then "/".data else "|".data) hv) (ctxErr (hl.highlight p.2)))
      ((L.take (er + 1 - sr)).enum) with
  | error e => rw [hr] at h; cases h
  | ok rows =>
    rw [hr] at h
    cases h
    exact ⟨rows, rfl, rfl⟩


/-! # Claim theorems -/

/-- C1: for every match whose `byte_span` is empty, the render emits exactly
the header line and the location line and nothing else — no blank gutter
separator, no code lines, no underline, no trailing gutter line. -/
theorem claim1_empty_span_header_and_location_only
    (tsNew : Except String Highlighter) (m : LintMatch) (code : Bytes)
    (path : String) (opts : Opts) (out : List Chars)
    (hempty : m.range.bytesEnd ≤ m.range.bytesStart)
    (h : report_opts tsNew m code path opts = .ok out) :
    out = [headerLine (warnTok opts.color) (resetTok opts.color) (boldTok opts.color)
             (escape_html m.lint_name) (escape_html m.message),
           locationLine (highlightTok opts.color) (resetTok opts.color) (escape_html path)
             m.range.start_point.row m.range.start_point.col] := by
  obtain ⟨hl, hc, hr⟩ := report_opts_ok_inv h
  unfold renderWith at hr
  rw [if_pos hempty] at hr
  injection hr with hr
  exact hr.symm

/-- Witness for C1: a concrete empty-span match renders to exactly the
header and location lines. -/
theorem claim1_witness :
    report_opts (.ok NopHighlighter) ⟨"x", "y", ⟨0, 0, ⟨0, 0⟩, ⟨0, 0⟩⟩⟩
        (strBytes "hi") "t" Opts.default =
      .ok ["warning: [x] y".data, "  --> t:0:0".data] ∧
    ["warning: [x] y".data, "  --> t:0:0".data] =
      [headerLine (warnTok Opts.default.color) (resetTok Opts.default.color)
         (boldTok Opts.default.color) (escape_html "x") (escape_html "y"),
       locationLine (highlightTok Opts.default.color) (resetTok Opts.default.color)
         (escape_html "t") 0 0] := by
  have hrep : report_opts (.ok NopHighlighter) ⟨"x", "y", ⟨0, 0, ⟨0, 0⟩, ⟨0, 0⟩⟩⟩
      (strBytes "hi") "t" Opts.default =
      .ok ["warning: [x] y".data, "  --> t:0:0".data] := by rfl
  exact ⟨hrep, claim1_empty_span_header_and_location_only (.ok NopHighlighter)
    ⟨"x", "y", ⟨0, 0, ⟨0, 0⟩, ⟨0, 0⟩⟩⟩ (strBytes "hi") "t" Opts.default
    ["warning: [x] y".data, "  --> t:0:0".data] (by decide) hrep⟩

/-- C7: a token category absent from the style table is styled with the
neutral/reset fallback rather than failing, and the no-op highlighter
decodes any byte sequence lossily (U+FFFD for invalid bytes) and never
fails. -/
theorem claim7_fallbacks :
    (∀ (names : List String) (h : Nat),
        ((names[h]?).getD "unknown") ∉ ANSI_HIGHLIGHT_ARRAY.map Prod.fst →
        ansi_for_highlight names h = COLOR_RESET) ∧
    (∀ code : Bytes, NopHighlighter.highlight code = .ok (utf8Lossy code)) ∧
    NopHighlighter.highlight [255] = .ok [replacementChar] := by
  refine ⟨?_, fun _ => rfl, by rfl⟩
  intro names h hnot
  have hfind : ANSI_HIGHLIGHT_ARRAY.find?
      (fun p => p.1 == ((names[h]?).getD "unknown")) = none := by
    apply List.find?_eq_none.mpr
    intro x hx
    simp only [beq_iff_eq]
    intro heq
    exact hnot (heq ▸ List.mem_map_of_mem Prod.fst hx)
  simp [ansi_for_highlight, hfind]

/-- Witness for C7: the unknown category "bogus" falls back to the reset
style. -/
theorem claim7_witness :
    ((["bogus"][0]?).getD "unknown") ∉ ANSI_HIGHLIGHT_ARRAY.map Prod.fst ∧
    ansi_for_highlight ["bogus"] 0 = COLOR_RESET :=
  ⟨by decide, claim7_fallbacks.1 ["bogus"] 0 (by decide)⟩

/-- C8: the renderer is deterministic — two calls with identical inputs
produce identical output (the model is a pure function of its inputs). -/
theorem claim8_deterministic (tsNew tsNew' : Except String Highlighter)
    (m m' : LintMatch) (code code' : Bytes) (path path' : String) (opts opts' : Opts)
    (h1 : tsNew = tsNew') (h2 : m = m') (h3 : code = code') (h4 : path = path')
    (h5 : opts = opts') :
    report_opts tsNew m code path opts = report_opts tsNew' m' code' path' opts' := by
  subst h1 h2 h3 h4 h5
  rfl

/-- Witness for C8: determinism at a concrete input. -/
theorem claim8_witness :
    report_opts (.ok NopHighlighter) ⟨"x", "y", ⟨0, 4, ⟨0, 0⟩, ⟨0, 4⟩⟩⟩
        (strBytes "hi") "t" Opts.default =
      report_opts (.ok NopHighlighter) ⟨"x", "y", ⟨0, 4, ⟨0, 0⟩, ⟨0, 4⟩⟩⟩
        (strBytes "hi") "t" Opts.default :=
  claim8_deterministic _ _ _ _ _ _ _ _ _ _ rfl rfl rfl rfl rfl

/-- C9: `report` produces exactly the result of `report_opts` with the
default options, and the default options are zero context lines before and
after with color disabled. -/
theorem claim9_report_defaults_to_report_opts :
    Opts.default.extra_lines = (0, 0) ∧ Opts.default.color = false ∧
    ∀ (tsNew : Except String Highlighter) (m : LintMatch) (code : Bytes) (path : String),
      report tsNew m code path = report_opts tsNew m code path Opts.default :=
  ⟨rfl, rfl, fun _ _ _ _ => rfl⟩


/-! ## Helpers for positional and shape reasoning -/

theorem getElem?_append_off {α : Type} (xs ys : List α) (n i : Nat)
    (h : n = xs.length + i) : (xs ++ ys)[n]? = ys[i]? := by
  subst h
  rw [List.getElem?_append_right (Nat.le_add_right _ _)]
  simp

theorem exceptMap_ok_inv {f : Chars → Chars} {r : Except String Chars} {y : Chars}
    (h : Except.map f r = .ok y) : ∃ v, r = .ok v ∧ y = f v := by
  cases r with
  | error e => simp [Except.map] at h
  | ok v =>
    simp only [Except.map, Except.ok.injEq] at h
    exact ⟨v, rfl, h.symm⟩

theorem mem_enum_fst_lt {α : Type} {p : Nat × α} {l : List α} (h : p ∈ l.enum) :
    p.1 < l.length := by
  have := List.mem_enum_iff_getElem?.mp h
  exact (List.getElem?_eq_some.mp this).1

theorem beforeSegE_ok_length {hl : Highlighter} {hlT rst : Chars} {w ci sr nb : Nat}
    {code : Bytes} {off : Nat} {bOut : List Chars}
    (hb : beforeSegE hl hlT rst w ci sr nb code off = .ok bOut) :
    bOut.length = (((linesRev code off).drop 1).take nb).length := by
  unfold beforeSegE at hb
  have := mapE_ok_length hb
  simpa using this

theorem afterSegE_ok_length {hl : Highlighter} {hlT rst : Chars} {w ci er na : Nat}
    {rest : List Bytes} {aOut : List Chars}
    (ha : afterSegE hl hlT rst w ci er na rest = .ok aOut) :
    aOut.length = min na rest.length := by
  unfold afterSegE at ha
  have := mapE_ok_length ha
  simpa using this

theorem gutter_shape_num {hlT rst : Chars} {w row : Nat}
    (hle : (natToString row).length ≤ w) (tail : Chars) :
    ∃ g r2, numGutter hlT rst w row ++ tail = hlT ++ g ++ " |".data ++ r2 ∧
      g.length = w :=
  ⟨padNum row w, rst ++ " ".data ++ tail,
    by simp [numGutter, List.append_assoc], padNum_length_of_le hle⟩

theorem gutter_shape_blank {hlT rst : Chars} {w : Nat} (tail : Chars) :
    ∃ g r2, blankGutterLine hlT rst w ++ tail = hlT ++ g ++ " |".data ++ r2 ∧
      g.length = w :=
  ⟨spaces w, rst ++ " ".data ++ tail,
    by simp [blankGutterLine, List.append_assoc], by simp [spaces]⟩

theorem gutter_shape_blank0 {hlT rst : Chars} {w : Nat} :
    ∃ g r2, blankGutterLine hlT rst w = hlT ++ g ++ " |".data ++ r2 ∧
      g.length = w :=
  ⟨spaces w, rst ++ " ".data, by simp [blankGutterLine], by simp [spaces]⟩

theorem out_shape_getElem? {α : Type} (h1 h2 h3 : α) (bOut mOut aOut : List α)
    (pfx : α) (i : Nat) :
    ([h1, h2, h3] ++ bOut ++ mOut ++ aOut ++ [pfx])[3 + bOut.length + i]? =
      (mOut ++ aOut ++ [pfx])[i]? := by
  simp only [List.append_assoc]
  rw [getElem?_append_off [h1, h2, h3] (bOut ++ (mOut ++ (aOut ++ [pfx])))
      (3 + bOut.length + i) (bOut.length + i) (by simp; omega)]
  rw [getElem?_append_off bOut (mOut ++ (aOut ++ [pfx]))
      (bOut.length + i) i (by omega)]

/-- C2 counterexample: for the match with `start_row = end_row = 0`,
`start_col = end_col = 5` and non-empty byte span `0..1` on buffer
"hello", the render succeeds but emits no caret at all (zero-width run),
not the single caret the claim requires. -/
theorem claim2_counterexample :
    (report_opts (.ok NopHighlighter) ⟨"x", "y", ⟨0, 1, ⟨0, 5⟩, ⟨0, 5⟩⟩⟩
        (strBytes "hello") "t" Opts.default).toOption.map
      (fun out => out.countP (fun l => l.contains '^')) = some 0 := by decide

/-- C2 (amended): for every match with `start_row = end_row` and a
non-empty byte span, the underline line is the blank gutter, `start_col`
spaces, then a run of `end_col − start_col` carets (saturating
subtraction: when `end_col = start_col` the run is empty — no caret is
rendered). -/
theorem claim2_amended_caret_run
    (tsNew : Except String Highlighter) (m : LintMatch) (code : Bytes)
    (path : String) (opts : Opts) (out : List Chars)
    (hrow : m.range.start_point.row = m.range.end_point.row)
    (hne : m.range.bytesStart < m.range.bytesEnd)
    (h : report_opts tsNew m code path opts = .ok out) :
    out[4 + (((linesRev code m.range.bytesStart).drop 1).take opts.extra_lines.1).length]? =
      some (blankGutterLine (highlightTok opts.color) (resetTok opts.color)
          (gutterWidth m opts)
        ++ spaces m.range.start_point.col ++ warnTok opts.color
        ++ List.replicate (m.range.end_point.col - m.range.start_point.col) '^'
        ++ resetTok opts.color) := by
  obtain ⟨hl, hc, hr⟩ := report_opts_ok_inv h
  have hne' : ¬ (m.range.bytesEnd ≤ m.range.bytesStart) := by omega
  obtain ⟨bOut, mOut, aOut, hb, hm, ha, hout⟩ := renderWith_ok_inv hne' hr
  obtain ⟨line, rest, hh, hL, hctx, hmOut⟩ := matchSegE_single_inv hrow hm
  have hblen := beforeSegE_ok_length hb
  subst hout hmOut
  have hidx : 4 + (((linesRev code m.range.bytesStart).drop 1).take
      opts.extra_lines.1).length = 3 + bOut.length + 1 := by omega
  rw [hidx, out_shape_getElem?]
  simp [singleUnderline]

/-- Witness for C2 (amended): the spec's concrete single-line scenario.
The buffer is `"int main() {}\n"`, the match spans bytes 4..8 at columns
4..8 of row 0, and the underline row carries exactly four carets after
four spaces. -/
theorem claim2_witness :
    report_opts (.ok NopHighlighter) ⟨"x", "y", ⟨4, 8, ⟨0, 4⟩, ⟨0, 8⟩⟩⟩
        (strBytes "int main() \x7b\x7d\n") "t" Opts.default =
      .ok ["warning: [x] y".data, "  --> t:0:4".data, "  | ".data,
           "0 | int main() \x7b\x7d".data, "  |     ^^^^".data, "  | ".data] ∧
    ["warning: [x] y".data, "  --> t:0:4".data, "  | ".data,
     "0 | int main() \x7b\x7d".data, "  |     ^^^^".data, "  | ".data][4]? =
      some (blankGutterLine (highlightTok false) (resetTok false) 1
        ++ spaces 4 ++ warnTok false ++ List.replicate 4 '^' ++ resetTok false) := by
  have hrep : report_opts (.ok NopHighlighter) ⟨"x", "y", ⟨4, 8, ⟨0, 4⟩, ⟨0, 8⟩⟩⟩
      (strBytes "int main() \x7b\x7d\n") "t" Opts.default =
      .ok ["warning: [x] y".data, "  --> t:0:4".data, "  | ".data,
           "0 | int main() \x7b\x7d".data, "  |     ^^^^".data, "  | ".data] := by rfl
  exact ⟨hrep, claim2_amended_caret_run (.ok NopHighlighter)
    ⟨"x", "y", ⟨4, 8, ⟨0, 4⟩, ⟨0, 8⟩⟩⟩ (strBytes "int main() \x7b\x7d\n") "t"
    Opts.default _ rfl (by decide) hrep⟩

/-- C3: the gutter width used on every emitted line (all lines past the
header and location lines) equals the decimal digit count of
`end_row + context_after`, even when fewer context-after lines exist; it
is the same on all lines of one call.  (Rows are ordered, so the
hypothesis is the Range invariant `start_point ≤ end_point`.) -/
theorem claim3_gutter_width_invariant
    (tsNew : Except String Highlighter) (m : LintMatch) (code : Bytes)
    (path : String) (opts : Opts) (out : List Chars)
    (hrow : m.range.start_point.row ≤ m.range.end_point.row)
    (h : report_opts tsNew m code path opts = .ok out) :
    ∀ line ∈ out.drop 2, ∃ g r2,
      line = highlightTok opts.color ++ g ++ " |".data ++ r2 ∧
      g.length = (natToString (m.range.end_point.row + opts.extra_lines.2)).length := by
  obtain ⟨hl, hc, hr⟩ := report_opts_ok_inv h
  by_cases hempty : m.range.bytesEnd ≤ m.range.bytesStart
  · unfold renderWith at hr
    rw [if_pos hempty] at hr
    injection hr with hr
    intro line hline
    rw [← hr] at hline
    simp at hline
  · obtain ⟨bOut, mOut, aOut, hb, hm, ha, hout⟩ := renderWith_ok_inv hempty hr
    subst hout
    intro line hline
    simp only [List.append_assoc, List.cons_append, List.nil_append,
      List.drop_succ_cons, List.drop_zero, List.mem_cons, List.mem_append,
      List.mem_singleton] at hline
    rcases hline with rfl | hb' | hm' | ha' | rfl | h0
    · exact gutter_shape_blank0
    · unfold beforeSegE at hb
      obtain ⟨p, hp, hfp⟩ := mapE_ok_mem hb line hb'
      obtain ⟨v, hcv, hlv⟩ := exceptMap_ok_inv hfp
      subst hlv
      have heq : ctxLine (highlightTok opts.color) (resetTok opts.color)
          (gutterWidth m opts) (codeIndent m)
          (m.range.start_point.row - p.1 - 1) v =
          numGutter (highlightTok opts.color) (resetTok opts.color)
            (gutterWidth m opts) (m.range.start_point.row - p.1 - 1)
            ++ (spaces (codeIndent m) ++ v) := by
        simp [ctxLine, List.append_assoc]
      rw [heq]
      exact gutter_shape_num (natToString_length_mono (by omega)) _
    · by_cases hsr : m.range.start_point.row = m.range.end_point.row
      · obtain ⟨ln, rest, hh, hL, hctx, hmOut⟩ := matchSegE_single_inv hsr hm
        subst hmOut
        rcases List.mem_cons.mp hm' with hline1 | hline2
        · subst hline1
          exact gutter_shape_num (natToString_length_mono (by omega)) _
        · simp only [List.mem_singleton] at hline2
          subst hline2
          have heq : singleUnderline (highlightTok opts.color) (warnTok opts.color)
              (resetTok opts.color) (gutterWidth m opts)
              m.range.start_point.col m.range.end_point.col =
              blankGutterLine (highlightTok opts.color) (resetTok opts.color)
                (gutterWidth m opts)
              ++ (spaces m.range.start_point.col ++ (warnTok opts.color
                ++ (List.replicate (m.range.end_point.col - m.range.start_point.col) '^'
                  ++ resetTok opts.color))) := by
            simp [singleUnderline, List.append_assoc]
          rw [heq]
          exact gutter_shape_blank _
      · obtain ⟨rows, hrowsmap, hmOut⟩ := matchSegE_multi_inv hsr hm
        subst hmOut
        rcases List.mem_append.mp hm' with hline1 | hline2
        · obtain ⟨p, hp, hfp⟩ := mapE_ok_mem hrowsmap line hline1
          obtain ⟨v, hcv, hlv⟩ := exceptMap_ok_inv hfp
          subst hlv
          have hplt : p.1 < m.range.end_point.row + 1 - m.range.start_point.row := by
            have := mem_enum_fst_lt hp
            simp [List.length_take] at this
            omega
          have heq : multiRowLine (highlightTok opts.color) (warnTok opts.color)
              (resetTok opts.color) (gutterWidth m opts)
              (m.range.start_point.row + p.1)
              (if p.1 = 0 then "/".data else "|".data) v =
              numGutter (highlightTok opts.color) (resetTok opts.color)
                (gutterWidth m opts) (m.range.start_point.row + p.1)
              ++ (" ".data ++ (warnTok opts.color
                ++ ((if p.1 = 0 then "/".data else "|".data)
                  ++ (resetTok opts.color ++ (" ".data ++ v))))) := by
            simp [multiRowLine, List.append_assoc]
          rw [heq]
          exact gutter_shape_num (natToString_length_mono (by omega)) _
        · simp only [List.mem_singleton] at hline2
          subst hline2
          have heq : multiUnderline (highlightTok opts.color) (warnTok opts.color)
              (resetTok opts.color) (gutterWidth m opts) m.range.end_point.col =
              blankGutterLine (highlightTok opts.color) (resetTok opts.color)
                (gutterWidth m opts)
              ++ (" ".data ++ (warnTok opts.color ++ ("|".data
                ++ (List.replicate m.range.end_point.col '_'
                  ++ ("^".data ++ resetTok opts.color))))) := by
            simp [multiUnderline, List.append_assoc]
          rw [heq]
          exact gutter_shape_blank _
    · unfold afterSegE at ha
      obtain ⟨p, hp, hfp⟩ := mapE_ok_mem ha line ha'
      obtain ⟨v, hcv, hlv⟩ := exceptMap_ok_inv hfp
      subst hlv
      have hplt : p.1 < opts.extra_lines.2 := by
        have := mem_enum_fst_lt hp
        simp [List.length_take] at this
        omega
      have heq : ctxLine (highlightTok opts.color) (resetTok opts.color)
          (gutterWidth m opts) (codeIndent m)
          (m.range.end_point.row + p.1 + 1) v =
          numGutter (highlightTok opts.color) (resetTok opts.color)
            (gutterWidth m opts) (m.range.end_point.row + p.1 + 1)
            ++ (spaces (codeIndent m) ++ v) := by
        simp [ctxLine, List.append_assoc]
      rw [heq]
      exact gutter_shape_num (natToString_length_mono (by omega)) _
    · exact gutter_shape_blank0
    · simp at h0

/-- Witness for C3: the spec's concrete single-line scenario has gutter
width 1 on every line after the header and location. -/
theorem claim3_witness :
    report_opts (.ok NopHighlighter) ⟨"x", "y", ⟨4, 8, ⟨0, 4⟩, ⟨0, 8⟩⟩⟩
        (strBytes "int main() \x7b\x7d\n") "t" Opts.default =
      .ok ["warning: [x] y".data, "  --> t:0:4".data, "  | ".data,
           "0 | int main() \x7b\x7d".data, "  |     ^^^^".data, "  | ".data] ∧
    ∀ line ∈ (["warning: [x] y".data, "  --> t:0:4".data, "  | ".data,
        "0 | int main() \x7b\x7d".data, "  |     ^^^^".data,
        "  | ".data] : List Chars).drop 2, ∃ g r2,
      line = highlightTok Opts.default.color ++ g ++ " |".data ++ r2 ∧
      g.length = (natToString ((0 : Nat) + Opts.default.extra_lines.2)).length := by
  have hrep : report_opts (.ok NopHighlighter) ⟨"x", "y", ⟨4, 8, ⟨0, 4⟩, ⟨0, 8⟩⟩⟩
      (strBytes "int main() \x7b\x7d\n") "t" Opts.default =
      .ok ["warning: [x] y".data, "  --> t:0:4".data, "  | ".data,
           "0 | int main() \x7b\x7d".data, "  |     ^^^^".data, "  | ".data] := by rfl
  exact ⟨hrep, claim3_gutter_width_invariant (.ok NopHighlighter)
    ⟨"x", "y", ⟨4, 8, ⟨0, 4⟩, ⟨0, 8⟩⟩⟩ (strBytes "int main() \x7b\x7d\n") "t"
    Opts.default _ (by decide) hrep⟩

/-- C4: for every multi-line match (`start_row < end_row`) with non-empty
byte span, the `i`-th emitted row line carries connector `/` when `i = 0`
and `|` afterwards, and the closing underline line is the blank gutter, a
space, `|`, `end_col` underscore fill characters, then a single caret. -/
theorem claim4_multiline_connectors_and_underline
    (tsNew : Except String Highlighter) (m : LintMatch) (code : Bytes)
    (path : String) (opts : Opts) (out : List Chars)
    (hrow : m.range.start_point.row < m.range.end_point.row)
    (hne : m.range.bytesStart < m.range.bytesEnd)
    (h : report_opts tsNew m code path opts = .ok out) :
    (∀ i, i < min (m.range.end_point.row + 1 - m.range.start_point.row)
        (linesFrom code m.range.bytesStart).length →
      ∃ hh, out[3 + (((linesRev code m.range.bytesStart).drop 1).take
          opts.extra_lines.1).length + i]? =
        some (multiRowLine (highlightTok opts.color) (warnTok opts.color)
          (resetTok opts.color) (gutterWidth m opts) (m.range.start_point.row + i)
          (if i = 0 then "/".data else "|".data) hh)) ∧
    out[3 + (((linesRev code m.range.bytesStart).drop 1).take
        opts.extra_lines.1).length +
        min (m.range.end_point.row + 1 - m.range.start_point.row)
          (linesFrom code m.range.bytesStart).length]? =
      some (multiUnderline (highlightTok opts.color) (warnTok opts.color)
        (resetTok opts.color) (gutterWidth m opts) m.range.end_point.col) := by
  obtain ⟨hl, hc, hr⟩ := report_opts_ok_inv h
  have hne' : ¬ (m.range.bytesEnd ≤ m.range.bytesStart) := by omega
  obtain ⟨bOut, mOut, aOut, hb, hm, ha, hout⟩ := renderWith_ok_inv hne' hr
  obtain ⟨rows, hrowsmap, hmOut⟩ := matchSegE_multi_inv (by omega) hm
  have hblen := beforeSegE_ok_length hb
  have hrows_len : rows.length =
      min (m.range.end_point.row + 1 - m.range.start_point.row)
        (linesFrom code m.range.bytesStart).length := by
    have := mapE_ok_length hrowsmap
    simpa [List.length_take] using this
  subst hout hmOut
  constructor
  · intro i hi
    have hti : i < ((linesFrom code m.range.bytesStart).take
        (m.range.end_point.row + 1 - m.range.start_point.row)).length := by
      simp only [List.length_take]
      omega
    have henum : (((linesFrom code m.range.bytesStart).take
        (m.range.end_point.row + 1 - m.range.start_point.row)).enum)[i]? =
        some (i, ((linesFrom code m.range.bytesStart).take
          (m.range.end_point.row + 1 - m.range.start_point.row))[i]) := by
      rw [List.getElem?_enum, List.getElem?_eq_getElem hti]
      rfl
    obtain ⟨y, hy, hrowsi⟩ := mapE_getElem? hrowsmap i _ henum
    obtain ⟨hh, hce, hyv⟩ := exceptMap_ok_inv hy
    refine ⟨hh, ?_⟩
    have hidx : 3 + (((linesRev code m.range.bytesStart).drop 1).take
        opts.extra_lines.1).length + i = 3 + bOut.length + i := by omega
    rw [hidx, out_shape_getElem?]
    simp only [List.append_assoc]
    rw [List.getElem?_append_left (by omega : i < rows.length), hrowsi]
    simp [hyv]
  · have hidx : 3 + (((linesRev code m.range.bytesStart).drop 1).take
        opts.extra_lines.1).length +
        min (m.range.end_point.row + 1 - m.range.start_point.row)
          (linesFrom code m.range.bytesStart).length = 3 + bOut.length + rows.length := by
      omega
    rw [hidx, out_shape_getElem?]
    simp only [List.append_assoc]
    rw [getElem?_append_off rows _ rows.length 0 (by omega)]
    simp

/-- Witness for C4: the trailing-newline multi-line scenario from the
source's own test suite: row 0 gets connector `/`, and the closing
underline has zero underscores and one caret (`end_col = 0`). -/
theorem claim4_witness :
    report_opts (.ok NopHighlighter) ⟨"lint", "message", ⟨0, 21, ⟨0, 0⟩, ⟨1, 0⟩⟩⟩
        (strBytes "#define DONT_ENABLE 1\n") "<stdin>" Opts.default =
      .ok ["warning: [lint] message".data, "  --> <stdin>:0:0".data, "  | ".data,
           "0 |  / #define DONT_ENABLE 1".data, "  |  |^".data, "  | ".data] ∧
    (∃ hh, (["warning: [lint] message".data, "  --> <stdin>:0:0".data, "  | ".data,
        "0 |  / #define DONT_ENABLE 1".data, "  |  |^".data, "  | ".data] :
          List Chars)[3]? =
      some (multiRowLine (highlightTok false) (warnTok false) (resetTok false) 1 0
        "/".data hh)) ∧
    (["warning: [lint] message".data, "  --> <stdin>:0:0".data, "  | ".data,
      "0 |  / #define DONT_ENABLE 1".data, "  |  |^".data, "  | ".data] :
        List Chars)[4]? =
      some (multiUnderline (highlightTok false) (warnTok false) (resetTok false) 1 0) := by
  have hrep : report_opts (.ok NopHighlighter)
      ⟨"lint", "message", ⟨0, 21, ⟨0, 0⟩, ⟨1, 0⟩⟩⟩
      (strBytes "#define DONT_ENABLE 1\n") "<stdin>" Opts.default =
      .ok ["warning: [lint] message".data, "  --> <stdin>:0:0".data, "  | ".data,
           "0 |  / #define DONT_ENABLE 1".data, "  |  |^".data, "  | ".data] := by rfl
  have h4 := claim4_multiline_connectors_and_underline (.ok NopHighlighter)
    ⟨"lint", "message", ⟨0, 21, ⟨0, 0⟩, ⟨1, 0⟩⟩⟩ (strBytes "#define DONT_ENABLE 1\n")
    "<stdin>" Opts.default _ (by decide) (by decide) hrep
  exact ⟨hrep, h4.1 0 (by decide), h4.2⟩

/-! ## Nop-highlighter evaluation lemmas (color disabled) -/

theorem create_highlighter_false (tsNew : Except String Highlighter) :
    create_highlighter tsNew false = .ok NopHighlighter := rfl

theorem report_opts_false_eq_renderWith (tsNew : Except String Highlighter)
    (m : LintMatch) (code : Bytes) (path : String) (opts : Opts)
    (hcol : opts.color = false) :
    report_opts tsNew m code path opts = renderWith NopHighlighter m code path opts := by
  unfold report_opts
  rw [hcol]
  rfl

theorem beforeSegE_nop (hlT rst : Chars) (w ci sr nb : Nat) (code : Bytes) (off : Nat) :
    beforeSegE NopHighlighter hlT rst w ci sr nb code off =
      .ok (((((linesRev code off).drop 1).take nb).enum.reverse).map
        (fun p => ctxLine hlT rst w ci (sr - p.1 - 1) (utf8Lossy p.2))) := by
  unfold beforeSegE
  exact mapE_of_forall_ok (fun p _ => rfl)

theorem afterSegE_nop (hlT rst : Chars) (w ci er na : Nat) (rest : List Bytes) :
    afterSegE NopHighlighter hlT rst w ci er na rest =
      .ok (((rest.take na).enum).map
        (fun p => ctxLine hlT rst w ci (er + p.1 + 1) (utf8Lossy p.2))) := by
  unfold afterSegE
  exact mapE_of_forall_ok (fun p _ => rfl)

theorem matchSegE_nop_multi (hlT warn rst : Chars) (w sr er sc ec : Nat)
    (L : List Bytes) (hsr : ¬ sr = er) :
    matchSegE NopHighlighter hlT warn rst w sr er sc ec L =
      .ok ((((L.take (er + 1 - sr)).enum).map
        (fun p => multiRowLine hlT warn rst w (sr + p.1)
          (if p.1 = 0 then "/".data else "|".data) (utf8Lossy p.2)))
        ++ [multiUnderline hlT warn rst w ec]) := by
  have hmap : mapE (fun p => Except.map (fun hv => multiRowLine hlT warn rst w (sr + p.1)
      (if p.1 = 0 then "/".data else "|".data) hv) (ctxErr (NopHighlighter.highlight p.2)))
      ((L.take (er + 1 - sr)).enum) =
      .ok (((L.take (er + 1 - sr)).enum).map
        (fun p => multiRowLine hlT warn rst w (sr + p.1)
          (if p.1 = 0 then "/".data else "|".data) (utf8Lossy p.2))) :=
    mapE_of_forall_ok (fun p _ => rfl)
  unfold matchSegE
  rw [if_neg hsr, hmap]

theorem matchSegE_nop_single (hlT warn rst : Chars) (w sr er sc ec : Nat)
    (line : Bytes) (rest : List Bytes) (hsr : sr = er) :
    matchSegE NopHighlighter hlT warn rst w sr er sc ec (line :: rest) =
      .ok [numGutter hlT rst w sr ++ utf8Lossy line,
           singleUnderline hlT warn rst w sc ec] := by
  unfold matchSegE
  rw [if_pos hsr]
  rfl

/-- C5: a multi-line match whose row range implies more rows than the
buffer holds renders successfully without error: the row lines stop when
the line sequence runs out (before `end_row`), the closing underline is
still emitted, and the mismatch is not surfaced. -/
theorem claim5_truncated_rows_still_close
    (tsNew : Except String Highlighter) (m : LintMatch) (code : Bytes)
    (path : String) (opts : Opts)
    (hcol : opts.color = false)
    (hrow : m.range.start_point.row < m.range.end_point.row)
    (hne : m.range.bytesStart < m.range.bytesEnd)
    (hshort : (linesFrom code m.range.bytesStart).length <
      m.range.end_point.row + 1 - m.range.start_point.row) :
    report_opts tsNew m code path opts =
      .ok ([headerLine [] [] [] (escape_html m.lint_name) (escape_html m.message),
            locationLine [] [] (escape_html path) m.range.start_point.row
              m.range.start_point.col,
            blankGutterLine [] [] (gutterWidth m opts)]
        ++ ((((linesRev code m.range.bytesStart).drop 1).take
              opts.extra_lines.1).enum.reverse).map
            (fun p => ctxLine [] [] (gutterWidth m opts) 3
              (m.range.start_point.row - p.1 - 1) (utf8Lossy p.2))
        ++ ((linesFrom code m.range.bytesStart).enum).map
            (fun p => multiRowLine [] [] [] (gutterWidth m opts)
              (m.range.start_point.row + p.1)
              (if p.1 = 0 then "/".data else "|".data) (utf8Lossy p.2))
        ++ [multiUnderline [] [] [] (gutterWidth m opts) m.range.end_point.col]
        ++ [blankGutterLine [] [] (gutterWidth m opts)]) ∧
    (((linesFrom code m.range.bytesStart).enum).map
        (fun p => multiRowLine [] [] [] (gutterWidth m opts)
          (m.range.start_point.row + p.1)
          (if p.1 = 0 then "/".data else "|".data) (utf8Lossy p.2))).length =
      (linesFrom code m.range.bytesStart).length := by
  have hsr : ¬ m.range.start_point.row = m.range.end_point.row := by omega
  have hconsumed : consumed m = m.range.end_point.row + 1 - m.range.start_point.row := by
    unfold consumed
    rw [if_neg hsr]
  have hci : codeIndent m = 3 := by
    unfold codeIndent
    rw [if_neg hsr]
  have htake : (linesFrom code m.range.bytesStart).take
      (m.range.end_point.row + 1 - m.range.start_point.row) =
      linesFrom code m.range.bytesStart :=
    List.take_of_length_le (by omega)
  have hdrop : (linesFrom code m.range.bytesStart).drop (consumed m) = [] := by
    rw [hconsumed]
    exact List.drop_eq_nil_of_le (by omega)
  refine ⟨?_, by simp⟩
  rw [report_opts_false_eq_renderWith tsNew m code path opts hcol]
  unfold renderWith
  rw [if_neg (by omega), hcol]
  rw [show highlightTok false = [] from rfl, show warnTok false = [] from rfl,
      show resetTok false = [] from rfl, show boldTok false = [] from rfl]
  rw [beforeSegE_nop, matchSegE_nop_multi [] [] [] (gutterWidth m opts)
      m.range.start_point.row m.range.end_point.row m.range.start_point.col
      m.range.end_point.col (linesFrom code m.range.bytesStart) hsr,
      hdrop, afterSegE_nop]
  rw [htake, hci]
  simp [List.append_assoc]

/-- Witness for C5: the trailing-newline scenario — the range spans rows
0..1 but the buffer holds a single line; one row line is emitted, then the
closing underline, and the render succeeds. -/
theorem claim5_witness :
    (linesFrom (strBytes "#define DONT_ENABLE 1\n") 0).length < 1 + 1 - 0 ∧
    report_opts (.ok NopHighlighter) ⟨"lint", "message", ⟨0, 21, ⟨0, 0⟩, ⟨1, 0⟩⟩⟩
        (strBytes "#define DONT_ENABLE 1\n") "<stdin>" Opts.default =
      .ok ["warning: [lint] message".data, "  --> <stdin>:0:0".data, "  | ".data,
           "0 |  / #define DONT_ENABLE 1".data, "  |  |^".data, "  | ".data] :=
  ⟨by decide,
   (claim5_truncated_rows_still_close (.ok NopHighlighter)
     ⟨"lint", "message", ⟨0, 21, ⟨0, 0⟩, ⟨1, 0⟩⟩⟩
     (strBytes "#define DONT_ENABLE 1\n") "<stdin>" Opts.default
     rfl (by decide) (by decide) (by decide)).1⟩

/-- C10: with color disabled, highlighter construction always succeeds with
the no-op highlighter, whose `highlight` never fails; consequently (the
sink being modelled as infallible) the render itself always succeeds —
there is no configuration-error path.  The byte-offset bound is the
renderer's SANITY precondition that the range maps to a valid location. -/
theorem claim10_color_disabled_never_config_error
    (tsNew : Except String Highlighter) (m : LintMatch) (code : Bytes)
    (path : String) (opts : Opts)
    (hcol : opts.color = false)
    (hoff : m.range.bytesStart < code.length) :
    create_highlighter tsNew opts.color = .ok NopHighlighter ∧
    (∀ l : Bytes, NopHighlighter.highlight l = .ok (utf8Lossy l)) ∧
    ∃ out, report_opts tsNew m code path opts = .ok out := by
  refine ⟨by rw [hcol]; rfl, fun _ => rfl, ?_⟩
  rw [report_opts_false_eq_renderWith tsNew m code path opts hcol]
  by_cases hempty : m.range.bytesEnd ≤ m.range.bytesStart
  · exact ⟨_, by unfold renderWith; rw [if_pos hempty]⟩
  · unfold renderWith
    rw [if_neg hempty, beforeSegE_nop]
    by_cases hsr : m.range.start_point.row = m.range.end_point.row
    · obtain ⟨line, rest, hL⟩ : ∃ line rest,
          linesFrom code m.range.bytesStart = line :: rest := by
        cases hLF : linesFrom code m.range.bytesStart with
        | nil => exact absurd hLF (linesFrom_ne_nil hoff)
        | cons a as => exact ⟨a, as, rfl⟩
      rw [hL, matchSegE_nop_single _ _ _ _ _ _ _ _ line rest hsr, afterSegE_nop]
      exact ⟨_, rfl⟩
    · rw [matchSegE_nop_multi _ _ _ _ _ _ _ _ _ hsr, afterSegE_nop]
      exact ⟨_, rfl⟩

/-- Witness for C10: a concrete color-disabled render succeeds. -/
theorem claim10_witness :
    create_highlighter (.ok NopHighlighter) Opts.default.color = .ok NopHighlighter ∧
    (∀ l : Bytes, NopHighlighter.highlight l = .ok (utf8Lossy l)) ∧
    ∃ out, report_opts (.ok NopHighlighter) ⟨"x", "y", ⟨4, 8, ⟨0, 4⟩, ⟨0, 8⟩⟩⟩
        (strBytes "int main() \x7b\x7d\n") "t" Opts.default = .ok out :=
  claim10_color_disabled_never_config_error (.ok NopHighlighter)
    ⟨"x", "y", ⟨4, 8, ⟨0, 4⟩, ⟨0, 8⟩⟩⟩ (strBytes "int main() \x7b\x7d\n") "t"
    Opts.default rfl (by decide)

/-- Element lookup in the reversed enumeration of a reversed list, the
shape of the before-context segment: emitted farthest-first becomes
ascending order over the original list. -/
theorem enum_reverse_map_getElem {α β : Type} (l : List α) (g : Nat × α → β)
    (j : Nat) (hj : j < l.length) :
    ((l.reverse.enum.reverse).map g)[j]? = some (g (l.length - 1 - j, l[j])) := by
  rw [List.getElem?_map,
    List.getElem?_reverse (show j < (l.reverse.enum).length by simpa using hj)]
  have hlen : (l.reverse.enum).length = l.length := by simp
  rw [hlen, List.getElem?_enum,
    List.getElem?_reverse (show l.length - 1 - j < l.length by omega)]
  have hjj : l.length - 1 - (l.length - 1 - j) = j := by omega
  rw [hjj, List.getElem?_eq_getElem hj]
  rfl

/-- C6: requesting more context-before lines than exist before the match
does not error: exactly the available preceding lines are emitted, in
ascending row order, no more; the after-context count is likewise clamped
(`min` of the request and the lines remaining past the match). -/
theorem claim6_clamped_before_context
    (tsNew : Except String Highlighter) (m : LintMatch) (code : Bytes)
    (path : String) (opts : Opts)
    (hcol : opts.color = false)
    (hne : m.range.bytesStart < m.range.bytesEnd)
    (hoff : m.range.bytesStart < code.length)
    (hbig : lineIndex code m.range.bytesStart < opts.extra_lines.1) :
    ∃ bOut mid aOut,
      report_opts tsNew m code path opts =
        .ok ([headerLine [] [] [] (escape_html m.lint_name) (escape_html m.message),
              locationLine [] [] (escape_html path) m.range.start_point.row
                m.range.start_point.col,
              blankGutterLine [] [] (gutterWidth m opts)]
          ++ bOut ++ mid ++ aOut ++ [blankGutterLine [] [] (gutterWidth m opts)]) ∧
      bOut.length = lineIndex code m.range.bytesStart ∧
      (∀ j, j < lineIndex code m.range.bytesStart →
        ∃ lj, (splitLines code)[j]? = some lj ∧
          bOut[j]? = some (ctxLine [] [] (gutterWidth m opts) (codeIndent m)
            (m.range.start_point.row -
              (lineIndex code m.range.bytesStart - 1 - j) - 1)
            (utf8Lossy lj))) ∧
      aOut.length = min opts.extra_lines.2
        ((linesFrom code m.range.bytesStart).drop (consumed m)).length := by
  have hidx : lineIndex code m.range.bytesStart < (splitLines code).length :=
    lineIndex_lt_splitLines_length code m.range.bytesStart hoff
  have hB0 : (linesRev code m.range.bytesStart).drop 1 =
      ((splitLines code).take (lineIndex code m.range.bytesStart)).reverse := by
    unfold linesRev
    rw [List.take_succ, List.getElem?_eq_getElem hidx, List.reverse_append]
    rfl
  have hlen2 : ((splitLines code).take (lineIndex code m.range.bytesStart)).length =
      lineIndex code m.range.bytesStart := by
    simp [List.length_take]
    omega
  have htakeB : ((((splitLines code).take
        (lineIndex code m.range.bytesStart)).reverse).take opts.extra_lines.1) =
      ((splitLines code).take (lineIndex code m.range.bytesStart)).reverse :=
    List.take_of_length_le (by simp [hlen2]; omega)
  have hblen : (((((splitLines code).take
        (lineIndex code m.range.bytesStart)).reverse).enum.reverse).map
      (fun p => ctxLine [] [] (gutterWidth m opts) (codeIndent m)
        (m.range.start_point.row - p.1 - 1) (utf8Lossy p.2))).length =
      lineIndex code m.range.bytesStart := by
    simp [hlen2]
  have hpoint : ∀ j, j < lineIndex code m.range.bytesStart →
      ∃ lj, (splitLines code)[j]? = some lj ∧
        (((((splitLines code).take (lineIndex code m.range.bytesStart)).reverse).enum.reverse).map
          (fun p => ctxLine [] [] (gutterWidth m opts) (codeIndent m)
            (m.range.start_point.row - p.1 - 1) (utf8Lossy p.2)))[j]? =
          some (ctxLine [] [] (gutterWidth m opts) (codeIndent m)
            (m.range.start_point.row -
              (lineIndex code m.range.bytesStart - 1 - j) - 1)
            (utf8Lossy lj)) := by
    intro j hj
    have hjt : j < ((splitLines code).take (lineIndex code m.range.bytesStart)).length := by
      omega
    refine ⟨((splitLines code).take (lineIndex code m.range.bytesStart))[j], ?_, ?_⟩
    · have h1 : ((splitLines code).take (lineIndex code m.range.bytesStart))[j]? =
          (splitLines code)[j]? := by
        rw [List.getElem?_take]
        exact if_pos hj
      rw [← h1, List.getElem?_eq_getElem hjt]
    · rw [enum_reverse_map_getElem _ _ j hjt]
      rw [hlen2]
  by_cases hsr : m.range.start_point.row = m.range.end_point.row
  · obtain ⟨line, rest, hL⟩ : ∃ line rest,
        linesFrom code m.range.bytesStart = line :: rest := by
      cases hLF : linesFrom code m.range.bytesStart with
      | nil => exact absurd hLF (linesFrom_ne_nil hoff)
      | cons a as => exact ⟨a, as, rfl⟩
    refine ⟨_, [numGutter [] [] (gutterWidth m opts) m.range.start_point.row
        ++ utf8Lossy line,
        singleUnderline [] [] [] (gutterWidth m opts) m.range.start_point.col
          m.range.end_point.col],
      ((((line :: rest).drop (consumed m)).take opts.extra_lines.2).enum).map
        (fun p => ctxLine [] [] (gutterWidth m opts) (codeIndent m)
          (m.range.end_point.row + p.1 + 1) (utf8Lossy p.2)), ?_, hblen, hpoint, ?_⟩
    · rw [report_opts_false_eq_renderWith tsNew m code path opts hcol]
      unfold renderWith
      rw [if_neg (by omega), hcol]
      rw [show highlightTok false = ([] : Chars) from rfl,
          show warnTok false = ([] : Chars) from rfl,
          show resetTok false = ([] : Chars) from rfl,
          show boldTok false = ([] : Chars) from rfl]
      rw [beforeSegE_nop, hL,
          matchSegE_nop_single [] [] [] (gutterWidth m opts)
            m.range.start_point.row m.range.end_point.row
            m.range.start_point.col m.range.end_point.col line rest hsr,
          afterSegE_nop, hB0, htakeB]
    · rw [hL]
      simp [List.length_take]
  · refine ⟨_, ((((linesFrom code m.range.bytesStart).take
        (m.range.end_point.row + 1 - m.range.start_point.row)).enum).map
        (fun p => multiRowLine [] [] [] (gutterWidth m opts)
          (m.range.start_point.row + p.1)
          (if p.1 = 0 then "/".data else "|".data) (utf8Lossy p.2)))
        ++ [multiUnderline [] [] [] (gutterWidth m opts) m.range.end_point.col],
      ((((linesFrom code m.range.bytesStart).drop (consumed m)).take
          opts.extra_lines.2).enum).map
        (fun p => ctxLine [] [] (gutterWidth m opts) (codeIndent m)
          (m.range.end_point.row + p.1 + 1) (utf8Lossy p.2)), ?_, hblen, hpoint, ?_⟩
    · rw [report_opts_false_eq_renderWith tsNew m code path opts hcol]
      unfold renderWith
      rw [if_neg (by omega), hcol]
      rw [show highlightTok false = ([] : Chars) from rfl,
          show warnTok false = ([] : Chars) from rfl,
          show resetTok false = ([] : Chars) from rfl,
          show boldTok false = ([] : Chars) from rfl]
      rw [beforeSegE_nop,
          matchSegE_nop_multi [] [] [] (gutterWidth m opts)
            m.range.start_point.row m.range.end_point.row
            m.range.start_point.col m.range.end_point.col
            (linesFrom code m.range.bytesStart) hsr,
          afterSegE_nop, hB0, htakeB]
    · simp [List.length_take]

/-- Witness for C6: buffer "a\nb\nc\n" with the match on row 2 and five
context-before lines requested — only the two existing lines are emitted,
ascending. -/
theorem claim6_witness :
    lineIndex (strBytes "a\nb\nc\n") 4 < 5 ∧
    (∃ bOut mid aOut,
      report_opts (.ok NopHighlighter) ⟨"x", "y", ⟨4, 5, ⟨2, 0⟩, ⟨2, 1⟩⟩⟩
          (strBytes "a\nb\nc\n") "t" ⟨(5, 0), false⟩ =
        .ok ([headerLine [] [] [] (escape_html "x") (escape_html "y"),
              locationLine [] [] (escape_html "t") 2 0,
              blankGutterLine [] [] 1]
          ++ bOut ++ mid ++ aOut ++ [blankGutterLine [] [] 1]) ∧
      bOut.length = lineIndex (strBytes "a\nb\nc\n") 4 ∧
      (∀ j, j < lineIndex (strBytes "a\nb\nc\n") 4 →
        ∃ lj, (splitLines (strBytes "a\nb\nc\n"))[j]? = some lj ∧
          bOut[j]? = some (ctxLine [] [] 1 0
            (2 - (lineIndex (strBytes "a\nb\nc\n") 4 - 1 - j) - 1)
            (utf8Lossy lj))) ∧
      aOut.length = min 0
        ((linesFrom (strBytes "a\nb\nc\n") 4).drop 1).length) :=
  ⟨by decide,
   claim6_clamped_before_context (.ok NopHighlighter)
     ⟨"x", "y", ⟨4, 5, ⟨2, 0⟩, ⟨2, 1⟩⟩⟩ (strBytes "a\nb\nc\n") "t" ⟨(5, 0), false⟩
     rfl (by decide) (by decide) (by decide)⟩
